import Mathlib

/-!
Shallow embedding of the riff go-function-invoker core
(`pkg/server/plugin_invoker.go`, `pkg/server/content_negotiation.go`,
`pkg/server/marshalling.go`) and proofs about the claims of its
specification.

Go machinery is modelled as follows: `reflect.Type` values become
`GoType`, function signatures become `FnType`, Go interface values
crossing the bridge become `GoVal`, slices become `List`, Go `nil`
slices become `Option` `none`, fallible Go calls become `Except`, and
the concurrent goroutines become pure functions from the sequence of
events they observe to the trace of channel operations they perform.
-/

/-- Direction of a Go channel type (`reflect.ChanDir`). -/
inductive GoDir where
  | recvOnly
  | sendOnly
  | both
deriving DecidableEq, Repr

/-- A Go runtime type as introspected through `reflect`.  `errorT` is the
`error` interface type, `stringT` is any string-kinded type, `structT`
stands for `struct\x7b\x7d` (used by `canonicalize` as placeholder in/out
type), and `structOf names` is a struct type whose exported fields,
listed in declaration order, are all string-typed — the struct family
the JSON decoding model covers. -/
inductive GoType where
  | chan (dir : GoDir) (elem : GoType)
  | errorT
  | stringT
  | structT
  | structOf (fields : List String)
deriving DecidableEq, Repr

/-- `canReceive` from plugin_invoker.go: the RecvDir bit of the channel
direction is set.  On non-channel types Go would panic; the code only
applies it to channel types. -/
def canReceive : GoType → Bool
  | .chan .recvOnly _ => true
  | .chan .both _ => true
  | _ => false

/-- `Kind() == reflect.Chan`. -/
def isChanType : GoType → Bool
  | .chan _ _ => true
  | _ => false

/-- `Kind() == reflect.String`. -/
def isStringKind : GoType → Bool
  | .stringT => true
  | _ => false

/-- Element type of a channel type (`Elem()`); placeholder on non-channels,
where Go would panic (never reached by the embedded code paths). -/
def chanElemD : GoType → GoType
  | .chan _ e => e
  | _ => .structT

/-- The introspectable part of a Go `func` type: parameter types (`In`)
and result types (`Out`). -/
structure FnType where
  ins : List GoType
  outs : List GoType
deriving DecidableEq, Repr

/-- `isAcceptingInput`: the func value accepts exactly one parameter. -/
def isAcceptingInput (t : FnType) : Bool :=
  t.ins.length == 1

/-- `isErroring`: the last return value has type `error`. -/
def isErroring (t : FnType) : Bool :=
  match t.outs.getLast? with
  | some y => y == GoType.errorT
  | none => false

/-- `hasReturnValue`: there is a first return value and it is not of
type `error`. -/
def hasReturnValue (t : FnType) : Bool :=
  match t.outs.head? with
  | some y => y != GoType.errorT
  | none => false

/-- Result of `canonicalize`: either the function already had the
canonical streaming shape (with the elem type of its input channel), or
it was wrapped into the synthetic streaming wrapper with the recorded
in/out value types. -/
inductive CanonOutcome where
  | streaming (inElem : GoType)
  | wrapped (inType outType : GoType)
deriving DecidableEq, Repr

/-- The non-streaming branch of `canonicalize` (plugin_invoker.go:384-453):
at most one parameter and two results; the recorded `inType` is the single
parameter type (or `struct\x7b\x7d`), the recorded `outType` the first
non-error result (or `struct\x7b\x7d`). -/
def canonicalizeDirect (t : FnType) : Except String CanonOutcome :=
  if t.ins.length > 1 then
    .error "too many arguments to non streaming function"
  else
    let inType := if t.ins.length = 1 then t.ins.headD GoType.structT else GoType.structT
    if t.outs.length > 2 then
      .error "too many return values for non streaming function"
    else
      let outType := if hasReturnValue t then t.outs.headD GoType.structT else GoType.structT
      .ok (.wrapped inType outType)

/-- `canonicalize` (plugin_invoker.go:354-455).  Functions whose first
parameter and first result are both channels must be receive-capable and
may carry an optional second result that is a receive-capable channel of
`error`; everything else is treated as a direct function and wrapped. -/
def canonicalize (t : FnType) : Except String CanonOutcome :=
  if t.outs.length > 2 then
    .error "too many return values"
  else
    match t.ins.head?, t.outs.head? with
    | some (GoType.chan dIn eIn), some (GoType.chan dOut eOut) =>
      if ¬ canReceive (GoType.chan dIn eIn) ∨ ¬ canReceive (GoType.chan dOut eOut) then
        .error "wrong direction of channels in function"
      else
        match t.outs.get? 1 with
        | none => .ok (.streaming eIn)
        | some o1 =>
          if isChanType o1 ∧ chanElemD o1 = GoType.errorT ∧ canReceive o1 then
            .ok (.streaming eIn)
          else
            .error "second return type of function should be ([<-]chan error)"
    | _, _ => canonicalizeDirect t

/-- A Go interface value as it crosses the bridge.  `errv none` is a nil
`error` interface value (the only values on which the embedded code calls
`IsNil`); `structOf` is a value of a string-fielded struct type (field
name, field value, in declaration order); `nilChan` is a nil channel
value, the zero value a JSON `null` leaves in a channel-typed target. -/
inductive GoVal where
  | str (s : String)
  | errv (e : Option String)
  | structv
  | structOf (fields : List (String × String))
  | nilChan (dir : GoDir) (elem : GoType)
deriving DecidableEq, Repr

/-- `reflect.Value.IsNil` on the nil-able modelled values (`error`
interface values and channels). -/
def GoVal.isNil : GoVal → Bool
  | .errv none => true
  | .nilChan _ _ => true
  | _ => false

/-- `reflect.TypeOf` on the modelled values. -/
def goTypeOf : GoVal → GoType
  | .str _ => .stringT
  | .errv _ => .errorT
  | .structv => .structT
  | .structOf fields => .structOf (fields.map Prod.fst)
  | .nilChan dir elem => .chan dir elem

/-- A resolved direct (non-streaming) user function: its introspected
signature and its behaviour.  `impl none` models `oldFn.Call([])`,
`impl (some v)` models `oldFn.Call([v])`; it returns the `fnResult`
slice. -/
structure OldFn where
  sig : FnType
  impl : Option GoVal → List GoVal

/-- One observable action of the synthetic wrapper goroutine built by
`canonicalize` (plugin_invoker.go:412-445). -/
inductive WEvent where
  | invoke
  | sendErr (v : GoVal)
  | sendOut (v : GoVal)
  | closeOut
  | closeErrs
deriving DecidableEq, Repr

/-- `fnResult[oldFn.Type().NumOut()-1]` (the trailing result slot). -/
def lastOut (sig : FnType) (res : List GoVal) : GoVal :=
  res.getD (sig.outs.length - 1) (GoVal.errv none)

/-- `fnResult[0]` (the leading result slot). -/
def firstOut (res : List GoVal) : GoVal :=
  res.headD (GoVal.errv none)

/-- The send step of the wrapper goroutine after the inner function
returned `res` (plugin_invoker.go:436-442): a non-nil trailing error is
sent to the error channel, otherwise a data result (if any) is sent to
the output channel. -/
def sendPhase (sig : FnType) (res : List GoVal) : List WEvent :=
  if isErroring sig ∧ (lastOut sig res).isNil = false then
    [.sendErr (lastOut sig res)]
  else if hasReturnValue sig then
    [.sendOut (firstOut res)]
  else
    []

/-- One run of the wrapper goroutine on an inbound stream that delivers
the values of `stream` and then closes.  Returns the trace of events and
whether `reflect.Value.Call` panicked from an argument-count mismatch —
a panic raised while checking the arguments, before the inner function
ever executes, so no `invoke` event is recorded on that path; the
deferred closes still run while the panic unwinds the goroutine.
`in.Recv()` yields `(stream.head, true)` when a value is available and
`(zero, false)` once the channel is closed. -/
def wrapperRun (f : OldFn) (stream : List GoVal) : List WEvent × Bool :=
  match stream with
  | i :: _ =>
    if f.sig.ins.length = 1 then
      ((WEvent.invoke :: sendPhase f.sig (f.impl (some i))) ++ [.closeErrs, .closeOut], false)
    else
      ([.closeErrs, .closeOut], true)
  | [] =>
    if isAcceptingInput f.sig then
      ([.closeErrs, .closeOut], false)
    else if f.sig.ins.length = 0 then
      ((WEvent.invoke :: sendPhase f.sig (f.impl none)) ++ [.closeErrs, .closeOut], false)
    else
      ([.closeErrs, .closeOut], true)

/-- Number of values the wrapper receives from the inbound stream: it
performs a single `Recv`, so at most one. -/
def wrapperRecvCount (stream : List GoVal) : Nat :=
  min 1 stream.length

/-- The number of completion reports `Call` waits for
(plugin_invoker.go:124): `2 + (len(channelValues) - 1)` where
`channelValues` are the results of invoking the canonical function. -/
def reportQuota (numChannelValues : Nat) : Nat :=
  2 + (numChannelValues - 1)

/-- The error returned by `Call` (plugin_invoker.go:123-132): it reads
up to `n` reports from the rendezvous channel, stopping at the first
non-nil one, which becomes the result; `none` if all reads were nil. -/
def callResult {α : Type} : Nat → List (Option α) → Option α
  | 0, _ => none
  | _ + 1, [] => none
  | n + 1, r :: rs =>
    match r with
    | some e => some e
    | none => callResult n rs

/-- How many reports `Call`'s loop actually reads from the rendezvous
channel before returning. -/
def callReadCount {α : Type} : Nat → List (Option α) → Nat
  | 0, _ => 0
  | _ + 1, [] => 0
  | n + 1, r :: rs =>
    1 + match r with
        | some _ => 0
        | none => callReadCount n rs

/-- Media type string (`type MediaType string`). -/
abbrev MediaType := String

/-- Error code string (`type errorCode string`). -/
abbrev ErrorCode := String

def ContentTypeHeader : String := "Content-Type"
def AcceptHeader : String := "Accept"
def HandlerParam : String := "handler"
def AssumedContentType : MediaType := "text/plain"

def ContentTypeNotSupported : ErrorCode := "error-client-content-type-unsupported"
def AcceptNotSupported : ErrorCode := "error-client-accept-type-unsupported"
def ErrorWhileUnmarshalling : ErrorCode := "error-client-unmarshall"
def ErrorWhileMarshalling : ErrorCode := "error-client-marshall"
def InvocationError : ErrorCode := "error-server-function-invocation"

/-- `invokerError`; `cause` holds the wrapped error's message. -/
structure InvokerError where
  code : ErrorCode
  cause : Option String
  message : String
deriving DecidableEq, Repr

/-- `unsupportedContentType` (plugin_invoker.go:478-483). -/
def unsupportedContentType (ct : MediaType) : InvokerError :=
  { code := ContentTypeNotSupported
    cause := none
    message := "Unsupported Content-Type: " ++ ct }

/-- ASCII lowercasing as applied by `mime.ParseMediaType`. -/
def lowerChar (c : Char) : Char :=
  if 65 ≤ c.toNat ∧ c.toNat ≤ 90 then Char.ofNat (c.toNat + 32) else c

/-- Whitespace trimmed by `strings.TrimSpace`. -/
def isSpaceChar (c : Char) : Bool :=
  c = ' ' ∨ c = '\t' ∨ c = '\r' ∨ c = '\n'

/-- `mime.ParseMediaType`, reduced to the media type proper: the
lowercased, trimmed part before the first parameter separator; `none` on
an empty type (full RFC token validation of exotic inputs is not
modelled, no claim exercises it). -/
def parseMediaTypeMain (mt : MediaType) : Option String :=
  let base := (mt.data.takeWhile (· ≠ ';')).map lowerChar
  let trimmed := ((base.dropWhile isSpaceChar).reverse.dropWhile isSpaceChar).reverse
  if trimmed.isEmpty then none else some ⟨trimmed⟩

/-- Value of a hexadecimal digit as accepted by encoding/json's `getu4`. -/
def hexDigitVal (c : Char) : Option Nat :=
  if 48 ≤ c.toNat ∧ c.toNat ≤ 57 then some (c.toNat - 48)
  else if 97 ≤ c.toNat ∧ c.toNat ≤ 102 then some (c.toNat - 87)
  else if 65 ≤ c.toNat ∧ c.toNat ≤ 70 then some (c.toNat - 55)
  else none

/-- Four hex digits of a `\uXXXX` escape. -/
def hex4 (a b c d : Char) : Option Nat := do
  let x ← hexDigitVal a
  let y ← hexDigitVal b
  let z ← hexDigitVal c
  let w ← hexDigitVal d
  pure (x * 4096 + y * 256 + z * 16 + w)

/-- Simple one-character JSON escapes accepted by encoding/json
(`\"`, `\\`, `\/`, `\'`, `\b`, `\f`, `\n`, `\r`, `\t`). -/
def jsonEscChar (e : Char) : Option Char :=
  if e = '"' ∨ e = '\\' ∨ e = '/' ∨ e.toNat = 39 then some e
  else if e = 'b' then some (Char.ofNat 8)
  else if e = 'f' then some (Char.ofNat 12)
  else if e = 'n' then some (Char.ofNat 10)
  else if e = 'r' then some (Char.ofNat 13)
  else if e = 't' then some (Char.ofNat 9)
  else none

/-- Body of a JSON string literal after the opening quote, following
encoding/json's `unquoteBytes`: plain characters, simple escapes,
`\uXXXX` escapes with surrogate-pair combination and U+FFFD substitution
for invalid surrogate halves; control characters are rejected; input
after the closing quote is ignored (the decoder reads a single value).
The fuel argument only bounds recursion depth; one unit is consumed per
produced character, so `input length + 1` is always sufficient. -/
def jsonStrLoop : Nat → List Char → Except String (List Char)
  | 0, _ => .error "model: fuel exhausted"
  | _ + 1, [] => .error "unexpected end of JSON input"
  | fuel + 1, c :: rest =>
    if c = '"' then .ok []
    else if c = '\\' then
      match rest with
      | [] => .error "unexpected end of JSON input"
      | e :: rest2 =>
        match jsonEscChar e with
        | some ch => (jsonStrLoop fuel rest2).map (ch :: ·)
        | none =>
          if e = 'u' then
            match rest2 with
            | a :: b :: c2 :: d :: rest3 =>
              match hex4 a b c2 d with
              | none => .error "invalid character in unicode escape"
              | some n =>
                if n < 0xD800 ∨ 0xE000 ≤ n then
                  (jsonStrLoop fuel rest3).map (Char.ofNat n :: ·)
                else if n < 0xDC00 then
                  match rest3 with
                  | '\\' :: 'u' :: a2 :: b2 :: c3 :: d2 :: rest4 =>
                    match hex4 a2 b2 c3 d2 with
                    | some m =>
                      if 0xDC00 ≤ m ∧ m < 0xE000 then
                        (jsonStrLoop fuel rest4).map
                          (Char.ofNat (0x10000 + (n - 0xD800) * 0x400 + (m - 0xDC00)) :: ·)
                      else (jsonStrLoop fuel rest3).map (Char.ofNat 0xFFFD :: ·)
                    | none => (jsonStrLoop fuel rest3).map (Char.ofNat 0xFFFD :: ·)
                  | _ => (jsonStrLoop fuel rest3).map (Char.ofNat 0xFFFD :: ·)
                else
                  (jsonStrLoop fuel rest3).map (Char.ofNat 0xFFFD :: ·)
            | _ => .error "invalid character in unicode escape"
          else .error "invalid character in string escape"
    else if c.toNat < 32 then .error "invalid control character in string literal"
    else (jsonStrLoop fuel rest).map (c :: ·)

/-- JSON whitespace as skipped by the decoder. -/
def isJsonSpace (c : Char) : Bool :=
  c = ' ' ∨ c = '\t' ∨ c = '\n' ∨ c = '\r'

/-- `json.NewDecoder(r).Decode(&s)` for a string-typed target: skips
leading whitespace and decodes a single JSON string value (a JSON `null`
leaves the freshly allocated target at its zero value, hence `""`);
anything else fails; input after the value is ignored. -/
def jsonUnmarshallString (payload : String) : Except String String :=
  match payload.data.dropWhile isJsonSpace with
  | '"' :: rest => (jsonStrLoop (rest.length + 1) rest).map (fun l => ⟨l⟩)
  | 'n' :: 'u' :: 'l' :: 'l' :: _ => .ok ""
  | _ => .error "cannot unmarshal value into Go value of type string"

/-- Lowercase hex digit, as used by encoding/json's `\u00XX` output. -/
def hexDig (n : Nat) : Char :=
  if n < 10 then Char.ofNat (48 + n) else Char.ofNat (87 + n)

/-- encoding/json's escaping of one character of a string value, with
the default HTML escaping (`<`, `>`, `&` and U+2028/U+2029 become
`\uXXXX` escapes). -/
def jsonEncodeChar (c : Char) : List Char :=
  if c = '"' then ['\\', '"']
  else if c = '\\' then ['\\', '\\']
  else if c = '\n' then ['\\', 'n']
  else if c = '\r' then ['\\', 'r']
  else if c = '\t' then ['\\', 't']
  else if c.toNat < 32 then ['\\', 'u', '0', '0', hexDig (c.toNat / 16), hexDig (c.toNat % 16)]
  else if c = '<' then ['\\', 'u', '0', '0', '3', 'c']
  else if c = '>' then ['\\', 'u', '0', '0', '3', 'e']
  else if c = '&' then ['\\', 'u', '0', '0', '2', '6']
  else if c.toNat = 0x2028 then ['\\', 'u', '2', '0', '2', '8']
  else if c.toNat = 0x2029 then ['\\', 'u', '2', '0', '2', '9']
  else [c]

/-- Escaped body of a JSON string as emitted by encoding/json. -/
def jsonEncodeBody : List Char → List Char
  | [] => []
  | c :: rest => jsonEncodeChar c ++ jsonEncodeBody rest

/-- `json.NewEncoder(w).Encode(s)` for a string value: the quoted,
escaped string followed by the newline the encoder appends. -/
def jsonMarshallString (s : String) : String :=
  ⟨'"' :: (jsonEncodeBody s.data ++ ['"', '\n'])⟩

/-- Scans a JSON string literal body (after the opening quote) for the
syntax check below, returning the input after the closing quote.  Escape
sequences are consumed without the full validation `jsonStrLoop`
performs (this scanner only guards decoding into non-string targets,
which no claim inspects). -/
def jsonScanString : Nat → List Char → Option (List Char)
  | 0, _ => none
  | _ + 1, [] => none
  | fuel + 1, c :: rest =>
    if c = '"' then some rest
    else if c = '\\' then
      match rest with
      | [] => none
      | _ :: rest2 => jsonScanString fuel rest2
    else if c.toNat < 32 then none
    else jsonScanString fuel rest

mutual

/-- Scans one JSON value, returning the remaining input. -/
def jsonScanValue : Nat → List Char → Option (List Char)
  | 0, _ => none
  | fuel + 1, l =>
    match l.dropWhile isJsonSpace with
    | [] => none
    | c :: rest =>
      if c = '"' then jsonScanString (rest.length + 1) rest
      else if c = 'n' then
        match rest with
        | 'u' :: 'l' :: 'l' :: r => some r
        | _ => none
      else if c = 't' then
        match rest with
        | 'r' :: 'u' :: 'e' :: r => some r
        | _ => none
      else if c = 'f' then
        match rest with
        | 'a' :: 'l' :: 's' :: 'e' :: r => some r
        | _ => none
      else if c = '[' then jsonScanArray fuel (rest.dropWhile isJsonSpace) true
      else if c.toNat = 123 then jsonScanObject fuel (rest.dropWhile isJsonSpace) true
      else if c = '-' ∨ c.isDigit then
        let rest1 := (c :: rest).dropWhile (fun x => x.isDigit ∨ x = '-')
        let rest2 :=
          match rest1 with
          | '.' :: r => r.dropWhile Char.isDigit
          | _ => rest1
        match rest2 with
        | 'e' :: r => some (((r.dropWhile (fun x => x = '+' ∨ x = '-')).dropWhile Char.isDigit))
        | 'E' :: r => some (((r.dropWhile (fun x => x = '+' ∨ x = '-')).dropWhile Char.isDigit))
        | r => some r
      else none

/-- Scans the elements of a JSON array after `[`; `first` is true before
the first element. -/
def jsonScanArray : Nat → List Char → Bool → Option (List Char)
  | 0, _, _ => none
  | fuel + 1, l, first =>
    match l with
    | ']' :: r => if first then some r else none
    | _ =>
      match jsonScanValue fuel l with
      | none => none
      | some r =>
        match r.dropWhile isJsonSpace with
        | ']' :: r2 => some r2
        | ',' :: r2 => jsonScanArray fuel (r2.dropWhile isJsonSpace) false
        | _ => none

/-- Scans the members of a JSON object after the opening brace; `first`
is true before the first member. -/
def jsonScanObject : Nat → List Char → Bool → Option (List Char)
  | 0, _, _ => none
  | fuel + 1, l, first =>
    match l with
    | c :: r =>
      if c.toNat = 125 then (if first then some r else none)
      else if c = '"' then
        match jsonScanString (r.length + 1) r with
        | none => none
        | some r2 =>
          match r2.dropWhile isJsonSpace with
          | ':' :: r3 =>
            match jsonScanValue fuel r3 with
            | none => none
            | some r4 =>
              match r4.dropWhile isJsonSpace with
              | c2 :: r5 =>
                if c2.toNat = 125 then some r5
                else if c2 = ',' then jsonScanObject fuel (r5.dropWhile isJsonSpace) false
                else none
              | [] => none
          | _ => none
      else none
    | [] => none

end

/-- Body of a JSON string literal after the opening quote, like
`jsonStrLoop`, but also returning the input after the closing quote;
used where decoding continues past the string (object member names and
string-typed member values).  Escape handling mirrors `jsonStrLoop`. -/
def jsonStrLoopR : Nat → List Char → Except String (List Char × List Char)
  | 0, _ => .error "model: fuel exhausted"
  | _ + 1, [] => .error "unexpected end of JSON input"
  | fuel + 1, c :: rest =>
    if c = '"' then .ok ([], rest)
    else if c = '\\' then
      match rest with
      | [] => .error "unexpected end of JSON input"
      | e :: rest2 =>
        match jsonEscChar e with
        | some ch => (jsonStrLoopR fuel rest2).map (fun p => (ch :: p.1, p.2))
        | none =>
          if e = 'u' then
            match rest2 with
            | a :: b :: c2 :: d :: rest3 =>
              match hex4 a b c2 d with
              | none => .error "invalid character in unicode escape"
              | some n =>
                if n < 0xD800 ∨ 0xE000 ≤ n then
                  (jsonStrLoopR fuel rest3).map (fun p => (Char.ofNat n :: p.1, p.2))
                else if n < 0xDC00 then
                  match rest3 with
                  | '\\' :: 'u' :: a2 :: b2 :: c3 :: d2 :: rest4 =>
                    match hex4 a2 b2 c3 d2 with
                    | some m =>
                      if 0xDC00 ≤ m ∧ m < 0xE000 then
                        (jsonStrLoopR fuel rest4).map
                          (fun p => (Char.ofNat (0x10000 + (n - 0xD800) * 0x400 + (m - 0xDC00)) :: p.1, p.2))
                      else (jsonStrLoopR fuel rest3).map (fun p => (Char.ofNat 0xFFFD :: p.1, p.2))
                    | none => (jsonStrLoopR fuel rest3).map (fun p => (Char.ofNat 0xFFFD :: p.1, p.2))
                  | _ => (jsonStrLoopR fuel rest3).map (fun p => (Char.ofNat 0xFFFD :: p.1, p.2))
                else
                  (jsonStrLoopR fuel rest3).map (fun p => (Char.ofNat 0xFFFD :: p.1, p.2))
            | _ => .error "invalid character in unicode escape"
          else .error "invalid character in string escape"
    else if c.toNat < 32 then .error "invalid control character in string literal"
    else (jsonStrLoopR fuel rest).map (fun p => (c :: p.1, p.2))

/-- Field resolution of encoding/json: an incoming object key selects
the struct field with the exactly matching name, else the first field
matching case-insensitively. -/
def resolveField (fields : List String) (name : String) : Option String :=
  match fields.find? (fun f => f == name) with
  | some f => some f
  | none => fields.find? (fun f => f.data.map lowerChar == name.data.map lowerChar)

/-- Overwrites the first binding of field `f` in the assignment list. -/
def updateField : List (String × String) → String → String → List (String × String)
  | [], _, _ => []
  | (n, v) :: rest, f, newV =>
    if n == f then (n, newV) :: rest else (n, v) :: updateField rest f newV

/-- Decodes one object member value, positioned after the colon (leading
whitespace dropped), into a string-fielded struct: a member matching a
field must be a JSON string (stored) or `null` (field left at its
current value); a member matching no field is skipped after a syntax
check, exactly as encoding/json discards unknown keys.  Returns the
updated assignments and the remaining input. -/
def jsonStructMember (fields : List String) (name : String) (l : List Char)
    (acc : List (String × String)) :
    Except String (List (String × String) × List Char) :=
  match resolveField fields name with
  | some f =>
    match l with
    | 'n' :: 'u' :: 'l' :: 'l' :: r => .ok (acc, r)
    | '"' :: r =>
      match jsonStrLoopR (r.length + 1) r with
      | .error e => .error e
      | .ok (valChars, r2) => .ok (updateField acc f ⟨valChars⟩, r2)
    | _ => .error "cannot unmarshal value into Go struct field of type string"
  | none =>
    match jsonScanValue (l.length + 1) l with
    | some r => .ok (acc, r)
    | none => .error "invalid JSON value in object member"

/-- The member loop of decoding a JSON object into a string-fielded
struct (after the opening brace; `first` is true before any member):
members update matching fields in arrival order, later members
overwriting earlier ones; the result keeps the struct's field order with
absent fields at their zero value. -/
def jsonStructLoop (fields : List String) :
    Nat → List Char → Bool → List (String × String) →
    Except String (List (String × String))
  | 0, _, _, _ => .error "model: fuel exhausted"
  | fuel + 1, l, first, acc =>
    match l.dropWhile isJsonSpace with
    | [] => .error "unexpected end of JSON input"
    | c :: rest =>
      if c.toNat = 125 then
        if first then .ok acc else .error "invalid character after object member"
      else if c = '"' then
        match jsonStrLoopR (rest.length + 1) rest with
        | .error e => .error e
        | .ok (nameChars, r2) =>
          match r2.dropWhile isJsonSpace with
          | ':' :: r3 =>
            match jsonStructMember fields ⟨nameChars⟩ (r3.dropWhile isJsonSpace) acc with
            | .error e => .error e
            | .ok (acc2, r4) =>
              match r4.dropWhile isJsonSpace with
              | ',' :: r5 => jsonStructLoop fields fuel r5 false acc2
              | c2 :: _ =>
                if c2.toNat = 125 then .ok acc2
                else .error "invalid character after object member"
              | [] => .error "unexpected end of JSON input"
          | _ => .error "expected colon after object key"
      else .error "invalid character looking for object key"

/-- `json.NewDecoder(r).Decode` into a fresh instance of the target type
(marshalling.go:76-83), for the modelled type universe: strings decode
from JSON strings; `struct\x7b\x7d` accepts any syntactically valid
object (all members unknown, hence skipped) ; string-fielded structs
decode member-wise with unknown members dropped; a JSON `null` leaves
any target at its zero value; everything else is a type mismatch, as in
encoding/json. -/
def jsonDecodeInto (t : GoType) (payload : String) : Except String GoVal :=
  match t with
  | .stringT => (jsonUnmarshallString payload).map GoVal.str
  | .structT =>
    match payload.data.dropWhile isJsonSpace with
    | 'n' :: 'u' :: 'l' :: 'l' :: _ => .ok .structv
    | c :: rest =>
      if c.toNat = 123 then
        match jsonScanObject (rest.length + 1) (rest.dropWhile isJsonSpace) true with
        | some _ => .ok .structv
        | none => .error "invalid JSON object"
      else .error "cannot unmarshal value into Go value of struct kind"
    | [] => .error "unexpected end of JSON input"
  | .structOf fields =>
    match payload.data.dropWhile isJsonSpace with
    | 'n' :: 'u' :: 'l' :: 'l' :: _ => .ok (.structOf (fields.map (fun n => (n, ""))))
    | c :: rest =>
      if c.toNat = 123 then
        (jsonStructLoop fields (rest.length + 1) rest true
          (fields.map (fun n => (n, "")))).map GoVal.structOf
      else .error "cannot unmarshal value into Go value of struct kind"
    | [] => .error "unexpected end of JSON input"
  | .errorT =>
    match payload.data.dropWhile isJsonSpace with
    | 'n' :: 'u' :: 'l' :: 'l' :: _ => .ok (.errv none)
    | _ => .error "cannot unmarshal value into Go value of type error"
  | .chan dir elem =>
    match payload.data.dropWhile isJsonSpace with
    | 'n' :: 'u' :: 'l' :: 'l' :: _ => .ok (.nilChan dir elem)
    | _ => .error "cannot unmarshal value into Go value of chan kind"

/-- A JSON string literal as emitted by the encoder, without the
trailing newline (used for object member names and values). -/
def jsonQuote (s : String) : String :=
  ⟨'"' :: (jsonEncodeBody s.data ++ ['"'])⟩

/-- The members of an encoded struct value, in field order. -/
def jsonEncodeMembers : List (String × String) → String
  | [] => ""
  | [(n, v)] => jsonQuote n ++ ":" ++ jsonQuote v
  | (n, v) :: rest => jsonQuote n ++ ":" ++ jsonQuote v ++ "," ++ jsonEncodeMembers rest

/-- JSON encoding of a bridge value (`json.NewEncoder(w).Encode(value)`):
strings are quoted with Go's escaping, structs emit their fields in
declaration order (`struct\x7b\x7d` and `errors.New` values, which have
no exported fields, emit empty objects), and channel values are
rejected, as encoding/json does; the encoder appends a newline. -/
def jsonMarshallGoVal : GoVal → Except String String
  | .str s => .ok (jsonMarshallString s)
  | .structv => .ok "\x7b\x7d\n"
  | .errv _ => .ok "\x7b\x7d\n"
  | .structOf fields => .ok ("\x7b" ++ jsonEncodeMembers fields ++ "\x7d\n")
  | .nilChan _ _ => .error "json: unsupported type: chan"

/-- One registered converter (the Go `jsonMarshalling` / `textMarshalling`
types implement both the `Marshaller` and the `Unmarshaller` interface). -/
structure MarshallingImpl where
  supportedMediaTypes : GoType → List MediaType
  marshall : GoVal → MediaType → Except String String
  canUnmarshall : GoType → MediaType → Bool
  unmarshall : String → GoType → MediaType → Except String GoVal

/-- `jsonMarshalling` (marshalling.go:53-83): offers application/json for
every type, decodes into a fresh instance of the target type. -/
def jsonMarshalling : MarshallingImpl where
  supportedMediaTypes := fun _ => ["application/json"]
  marshall := fun v _ => jsonMarshallGoVal v
  canUnmarshall := fun _ mt => parseMediaTypeMain mt == some "application/json"
  unmarshall := fun payload t _ => jsonDecodeInto t payload

/-- `textMarshalling` (marshalling.go:85-124): marshals string values
verbatim (non-string, non-Stringer values write the empty string, as the
Go type switch falls through); accepts only string-kinded unmarshal
targets and returns the raw payload.  The `fmt.Stringer` branch of
`supportedMediaTypes` is not modelled: no claim involves a
Stringer-implementing type. -/
def textMarshalling : MarshallingImpl where
  supportedMediaTypes := fun t => if isStringKind t then ["text/plain"] else []
  marshall := fun v _ =>
    match v with
    | .str s => .ok s
    | _ => .ok ""
  canUnmarshall := fun t mt => parseMediaTypeMain mt == some "text/plain" && isStringKind t
  unmarshall := fun payload _ _ => .ok (.str payload)

/-- The registry installed by `NewInvoker` (plugin_invoker.go:342-343). -/
def builtinMarshallers : List MarshallingImpl := [jsonMarshalling, textMarshalling]

/-- An envelope (`function.Message`): payload bytes and the header map
(name to value list). -/
structure Message where
  payload : String
  headers : List (String × List String)
deriving Repr

/-- Header lookup (`in.Headers[name]`; `none` models the nil map entry). -/
def lookupHeader (m : Message) (name : String) : Option (List String) :=
  m.headers.lookup name

/-- The content type resolved by `messageToFunctionArgs`
(plugin_invoker.go:268-271): `Content-Type` header if present (Go reads
`Values[0]`; the model returns `""` where Go would panic on an empty
value list, which no claim exercises), else the assumed text/plain. -/
def contentTypeOf (m : Message) : MediaType :=
  match lookupHeader m ContentTypeHeader with
  | some vs => vs.headD ""
  | none => AssumedContentType

/-- `messageToFunctionArgs` (plugin_invoker.go:267-283): the first
registered unmarshaller that `canUnmarshall` the (input type, content
type) pair is used; its failure is wrapped as `ErrorWhileUnmarshalling`;
if none accepts, the call fails with `ContentTypeNotSupported`. -/
def messageToFunctionArgs (unmarshallers : List MarshallingImpl) (inType : GoType)
    (m : Message) : Except InvokerError GoVal :=
  let ct := contentTypeOf m
  match unmarshallers.find? (fun um => um.canUnmarshall inType ct) with
  | some um =>
    match um.unmarshall m.payload inType ct with
    | .error e => .error { code := ErrorWhileUnmarshalling, cause := some e, message := "" }
    | .ok v => .ok v
  | none => .error (unsupportedContentType ct)

/-- One parsed element of an `Accept` header: a media range and its
quality value. -/
structure AcceptSpec where
  value : String
  q : Rat
deriving DecidableEq, Repr

/-- Characters accepted by gddo httputil's `expectTokenSlash`: HTTP
token characters (RFC 7230) plus `/`.  The apostrophe (39) and backtick
(96) are token characters too. -/
def isTokenSlashChar (c : Char) : Bool :=
  c.isAlphanum || c ∈ "!#$%&*+-.^_|~/".data || c.toNat = 39 || c.toNat = 96

/-- gddo httputil's `skipSpace` (space set: SP, HT, CR, LF). -/
def skipSpace (l : List Char) : List Char :=
  l.dropWhile (fun c => c = ' ' ∨ c = '\t' ∨ c = '\r' ∨ c = '\n')

/-- gddo httputil's `expectQuality`: `0` or `1`, optionally followed by
`.` and any run of digits; `none` models the `-1` failure result. -/
def expectQuality : List Char → Option Rat × List Char
  | [] => (none, [])
  | c :: rest =>
    if c = '0' ∨ c = '1' then
      let q0 : Rat := if c = '1' then 1 else 0
      match rest with
      | '.' :: rest2 =>
        let digits := rest2.takeWhile Char.isDigit
        let restAfter := rest2.dropWhile Char.isDigit
        let n : Nat := digits.foldl (fun acc d => acc * 10 + (d.toNat - 48)) 0
        let d : Nat := digits.foldl (fun acc _ => acc * 10) 1
        (some (q0 + (n : Rat) / (d : Rat)), restAfter)
      | _ => (some q0, rest)
    else (none, rest)

/-- gddo httputil header's `ParseAccept` inner loop over one header
string: repeatedly read a media range token, an optional `;q=` quality,
and a `,` separator; a malformed portion abandons the rest of the
string.  `fuel` bounds the iteration (one unit per parsed spec; the
caller passes the string length, always sufficient since each spec
consumes at least one character). -/
def parseAcceptOne : Nat → List Char → List AcceptSpec → List AcceptSpec
  | 0, _, acc => acc
  | fuel + 1, s, acc =>
    let value := s.takeWhile isTokenSlashChar
    let s1 := s.dropWhile isTokenSlashChar
    if value = [] then acc
    else
      let s2 := skipSpace s1
      let qAndRest : Option Rat × List Char :=
        match s2 with
        | ';' :: s2' =>
          match skipSpace s2' with
          | 'q' :: '=' :: s2'' => expectQuality s2''
          | _ => (none, s2')
        | _ => (some 1, s2)
      match qAndRest with
      | (none, _) => acc
      | (some q, s3) =>
        let acc2 := acc ++ [⟨⟨value⟩, q⟩]
        match skipSpace s3 with
        | ',' :: s4 => parseAcceptOne fuel (skipSpace s4) acc2
        | _ => acc2

/-- `ParseAccept` over all values of the `Accept` header. -/
def parseAccept (accept : List String) : List AcceptSpec :=
  accept.foldl (fun acc s => parseAcceptOne (s.length + 1) s.data acc) []

/-- Running best-match state of `NegotiateContentType`. -/
structure NegState where
  bestOffer : String
  bestQ : Rat
  bestWild : Nat
deriving DecidableEq, Repr

/-- One step of gddo httputil's `NegotiateContentType` double loop:
match `offer` against `spec`, preferring higher quality and more
specific (less wild) ranges. -/
def negotiateStep (offer : String) (st : NegState) (spec : AcceptSpec) : NegState :=
  if spec.q = 0 then st
  else if spec.q < st.bestQ then st
  else if spec.value = "*/*" then
    if spec.q > st.bestQ ∨ st.bestWild > 2 then ⟨offer, spec.q, 2⟩ else st
  else if ['/', '*'].isSuffixOf spec.value.data then
    if spec.value.data.dropLast.isPrefixOf offer.data ∧ (spec.q > st.bestQ ∨ st.bestWild > 1) then
      ⟨offer, spec.q, 1⟩
    else st
  else
    if spec.value = offer ∧ (spec.q > st.bestQ ∨ st.bestWild > 0) then ⟨offer, spec.q, 0⟩
    else st

/-- gddo httputil's `NegotiateContentType` on an already-parsed accept
list (the `http.Request` built by `bestMarshaller` carries exactly the
accept strings). -/
def negotiateContentType (accept : List String) (offers : List String)
    (defaultOffer : String) : String :=
  let specs := parseAccept accept
  (offers.foldl (fun st offer => specs.foldl (negotiateStep offer) st)
    ⟨defaultOffer, -1, 3⟩).bestOffer

/-- `spec` can select `offer` at all (positive quality and an exact,
subtype-wildcard or full-wildcard match); `negotiateStep` changes its
state only on matching pairs. -/
def specMatchesOffer (spec : AcceptSpec) (offer : String) : Bool :=
  spec.q ≠ 0 ∧
    (spec.value = "*/*" ∨
      (['/', '*'].isSuffixOf spec.value.data ∧ spec.value.data.dropLast.isPrefixOf offer.data) ∨
      spec.value = offer)

/-- `bestMarshaller` (content_negotiation.go:27-38).  A nil accept slice
(`none`) is replaced by text/plain; the marshaller map is modelled as an
association list in insertion order (Go map iteration order is
unspecified; no claim depends on it); a failed negotiation yields the
empty media type, which is absent from the map, hence `(none, "")`. -/
def bestMarshaller (accept : Option (List String))
    (marshallers : List (MediaType × MarshallingImpl)) :
    Option MarshallingImpl × MediaType :=
  let acceptL := match accept with
    | none => ["text/plain"]
    | some a => a
  let offers := marshallers.map (·.1)
  let chosen := negotiateContentType acceptL offers ""
  (marshallers.lookup chosen, chosen)

/-- The `supportedMarshallers` map built by `functionResultToMessage`
(plugin_invoker.go:291-300): every registered marshaller is asked for
its offers for the value's runtime type; the first marshaller claiming a
media type wins. -/
def buildSupportedMarshallers (marshallers : List MarshallingImpl) (t : GoType) :
    List (MediaType × MarshallingImpl) :=
  marshallers.foldl
    (fun acc m =>
      (m.supportedMediaTypes t).foldl
        (fun acc2 o => if (acc2.lookup o).isSome then acc2 else acc2 ++ [(o, m)]) acc)
    []

/-- `functionResultToMessage` (plugin_invoker.go:285-316): negotiate a
marshaller for the value's type against the accept list; no match is an
`AcceptNotSupported` error, a marshalling failure an
`ErrorWhileMarshalling` error; otherwise the payload is wrapped in an
envelope carrying the chosen content type. -/
def functionResultToMessage (marshallers : List MarshallingImpl) (value : GoVal)
    (accept : Option (List String)) : Except InvokerError Message :=
  let supported := buildSupportedMarshallers marshallers (goTypeOf value)
  match bestMarshaller accept supported with
  | (some chosen, contentType) =>
    match chosen.marshall value contentType with
    | .error e => .error { code := ErrorWhileMarshalling, cause := some e, message := "" }
    | .ok payload =>
      .ok { payload := payload, headers := [(ContentTypeHeader, [contentType])] }
  | (none, _) =>
    .error { code := AcceptNotSupported, cause := some "unsupported content types", message := "" }

/-- What one `callServer.Recv()` in the inbound goroutine can yield:
end of input, a receive error, or an envelope. -/
inductive RecvEvent where
  | eof
  | recvError (msg : String)
  | msg (m : Message)
deriving Repr

/-- A terminal error as posted to the rendezvous channel. -/
inductive GoErr where
  | invoker (ie : InvokerError)
  | transport (msg : String)
deriving DecidableEq, Repr

/-- Observable actions of the inbound goroutine `sidecar2Function`. -/
inductive S2FEvent where
  | publishAccept (vs : List String)
  | sendInput (v : GoVal)
  | closeInput
  | report (e : Option GoErr)
deriving DecidableEq, Repr

/-- The non-blocking publication of an `Accept` header to the accept
relay (plugin_invoker.go:154-159): attempted whenever the header map
entry is non-nil. -/
def acceptPublishEvents (m : Message) : List S2FEvent :=
  match lookupHeader m AcceptHeader with
  | some vs => [.publishAccept vs]
  | none => []

/-- One run of the inbound goroutine `sidecar2Function`
(plugin_invoker.go:136-190) as a function of the sequence of `Recv`
results and a cancellation oracle (`cancelled.head` tells whether the
`done` channel wins the send-vs-cancel race at the next send attempt).
`none` models a run that blocks forever because the modelled `Recv`
sequence ran out — a real stream always ends in EOF or an error. -/
def sidecar2FunctionRun (unmarshallers : List MarshallingImpl) (inType : GoType) :
    List RecvEvent → List Bool → Option (List S2FEvent)
  | [], _ => none
  | .eof :: _, _ => some [.closeInput, .report none]
  | .recvError e :: _, _ => some [.closeInput, .report (some (.transport e))]
  | .msg m :: rest, cancelled =>
    let pub := acceptPublishEvents m
    match messageToFunctionArgs unmarshallers inType m with
    | .error ie => some (pub ++ [.closeInput, .report (some (.invoker ie))])
    | .ok v =>
      if cancelled.headD false then
        some (pub ++ [.closeInput, .report none])
      else
        (sidecar2FunctionRun unmarshallers inType rest cancelled.tail).map
          (fun tr => pub ++ S2FEvent.sendInput v :: tr)

/-- State of a Go channel as far as closing is concerned. -/
structure GoChan where
  closed : Bool
deriving DecidableEq, Repr

/-- A fresh channel as created by `makeChannel` (plugin_invoker.go:493). -/
def makeChannelState : GoChan := { closed := false }

/-- `close` on a Go channel: closing an already-closed channel panics. -/
def chanClose (c : GoChan) : Except String GoChan :=
  if c.closed then .error "close of closed channel"
  else .ok { closed := true }

/-- A parsed function URI as produced by `url.Parse`:
`[file://]path?handler=name`. -/
structure ParsedURL where
  scheme : String
  path : String
  query : List (String × List String)
deriving Repr

/-- Outcome of a Go call that can, besides returning, panic. -/
inductive GoOutcome (α : Type) where
  | ok (a : α)
  | goError (msg : String)
  | panic (msg : String)
deriving Repr

/-- `NewInvoker` (plugin_invoker.go:318-346) up to signature
canonicalization, parameterized by the platform's plugin loader and
symbol resolver.  `url.Query()[Handler][0]` indexes the first element of
the handler values; when the key is absent the map yields a nil slice
and the index panics. -/
def NewInvoker {P : Type} (openPlugin : String → Except String P)
    (lookupSymbol : P → String → Except String FnType) (u : ParsedURL) :
    GoOutcome (Except String CanonOutcome) :=
  if u.scheme ≠ "" ∧ u.scheme ≠ "file" then
    .goError "Unsupported scheme in function URI"
  else
    match openPlugin u.path with
    | .error e => .goError e
    | .ok lib =>
      match ((u.query.lookup HandlerParam).getD []).head? with
      | none => .panic "runtime error: index out of range"
      | some fnName =>
        match lookupSymbol lib fnName with
        | .error e => .goError e
        | .ok sig => .ok (canonicalize sig)

/-- Removes JSON-insignificant whitespace: whitespace characters outside
string literals.  Used to state byte-level comparison "up to
insignificant whitespace". -/
def stripJsonWsAux : Bool → Bool → List Char → List Char
  | _, _, [] => []
  | true, esc, c :: rest =>
    c :: stripJsonWsAux (¬(¬esc ∧ c = '"')) (¬esc ∧ c = '\\') rest
  | false, _, c :: rest =>
    if isJsonSpace c then stripJsonWsAux false false rest
    else if c = '"' then c :: stripJsonWsAux true false rest
    else c :: stripJsonWsAux false false rest

/-- Whitespace-insensitive comparison of JSON texts. -/
def jsonWsInsensitiveEq (a b : String) : Bool :=
  stripJsonWsAux false false a.data == stripJsonWsAux false false b.data

def WEvent.isInvoke : WEvent → Bool
  | .invoke => true
  | _ => false

def WEvent.isCloseOut : WEvent → Bool
  | .closeOut => true
  | _ => false

def WEvent.isCloseErrs : WEvent → Bool
  | .closeErrs => true
  | _ => false

def WEvent.isSendErr : WEvent → Bool
  | .sendErr _ => true
  | _ => false

def WEvent.isSendOut : WEvent → Bool
  | .sendOut _ => true
  | _ => false

def S2FEvent.isCloseInput : S2FEvent → Bool
  | .closeInput => true
  | _ => false

/-! ## The Call loop: first-error-wins and report counting -/

theorem callResult_of_nil_prefix {α : Type} (pre : List (Option α)) :
    ∀ (n : Nat) (post : List (Option α)) (e : α),
      (∀ x ∈ pre, x = none) → pre.length < n →
      callResult n (pre ++ some e :: post) = some e := by
  induction pre with
  | nil =>
    intro n post e _ hn
    cases n with
    | zero => omega
    | succ m => simp [callResult]
  | cons r rs ih =>
    intro n post e hall hn
    have hr : r = none := hall r (by simp)
    subst hr
    cases n with
    | zero => simp at hn
    | succ m =>
      have hm : rs.length < m := by simpa using hn
      simpa [callResult] using ih m post e (fun x hx => hall x (by simp [hx])) hm

theorem callResult_of_all_nil {α : Type} :
    ∀ (n : Nat) (reports : List (Option α)),
      (∀ x ∈ reports.take n, x = none) → callResult n reports = none := by
  intro n
  induction n with
  | zero => intro reports _; simp [callResult]
  | succ m ih =>
    intro reports hall
    cases reports with
    | nil => simp [callResult]
    | cons r rs =>
      have hr : r = none := hall r (by simp)
      subst hr
      simpa [callResult] using ih rs (fun x hx => hall x (by simp [hx]))

/-- C1: for every call session, `Call` returns the first non-nil
completion report it reads from the rendezvous channel — reports read
after it (even if also errors) never change the result — and returns
nil when every report it reads is nil. -/
theorem Call_first_error_wins :
    (∀ (k : Nat) (pre post : List (Option String)) (e : String),
        (∀ x ∈ pre, x = none) → pre.length < reportQuota k →
        callResult (reportQuota k) (pre ++ some e :: post) = some e) ∧
    (∀ (k : Nat) (reports : List (Option String)),
        (∀ x ∈ reports.take (reportQuota k), x = none) →
        callResult (reportQuota k) reports = none) := by
  constructor
  · intro k pre post e hall hn
    exact callResult_of_nil_prefix pre (reportQuota k) post e hall hn
  · intro k reports hall
    exact callResult_of_all_nil (reportQuota k) reports hall

theorem Call_first_error_wins_witness :
    callResult (reportQuota 2) [none, some "boom", some "later"] = some "boom" ∧
    callResult (reportQuota 2) ([none, none, none] : List (Option String)) = none := by
  constructor
  · exact Call_first_error_wins.1 2 [none] [some "later"] "boom" (by simp) (by simp [reportQuota])
  · exact Call_first_error_wins.2 2 [none, none, none] (by simp [reportQuota])

theorem callReadCount_le {α : Type} :
    ∀ (n : Nat) (reports : List (Option α)), callReadCount n reports ≤ n := by
  intro n
  induction n with
  | zero => intro reports; simp [callReadCount]
  | succ m ih =>
    intro reports
    cases reports with
    | nil => simp [callReadCount]
    | cons r rs =>
      cases r with
      | some e => simp [callReadCount]
      | none =>
        have := ih rs
        simp only [callReadCount]
        omega

/-- With at least `n` reports pending, `Call`'s loop performs the full
`n` reads exactly when every report before the last read is nil — the
final read may be non-nil without shortening the count. -/
theorem callReadCount_eq_iff {α : Type} :
    ∀ (n : Nat) (reports : List (Option α)), n ≤ reports.length →
      (callReadCount n reports = n ↔ ∀ x ∈ reports.take (n - 1), x = none) := by
  intro n
  induction n with
  | zero => intro reports _; simp [callReadCount]
  | succ m ih =>
    intro reports hlen
    cases reports with
    | nil => simp at hlen
    | cons r rs =>
      cases r with
      | some e =>
        show (1 + 0 = m + 1) ↔ _
        cases m with
        | zero => simp
        | succ k =>
          simp only [Nat.succ_sub_one, List.take_succ_cons]
          constructor
          · intro h; omega
          · intro h
            exact absurd (h (some e) (by simp)) (by simp)
      | none =>
        show (1 + callReadCount m rs = m + 1) ↔ _
        cases m with
        | zero => simp [callReadCount]
        | succ k =>
          have hlen' : k + 1 ≤ rs.length := by simpa using hlen
          have hih := ih rs hlen'
          simp only [Nat.add_sub_cancel] at hih
          simp only [Nat.succ_sub_one, List.take_succ_cons]
          constructor
          · intro h
            have hk : callReadCount (k + 1) rs = k + 1 := by omega
            intro x hx
            rcases List.mem_cons.mp hx with h1 | h1
            · exact h1
            · exact hih.mp hk x h1
          · intro h
            have hk : callReadCount (k + 1) rs = k + 1 :=
              hih.mpr (fun x hx => h x (List.mem_cons_of_mem _ hx))
            omega

/-- C4 counterexample: with only an outbound data stream
(`reportQuota 1 = 2` expected reports), a first non-nil report makes
`Call` return after a single read, not two. -/
theorem Call_report_count_counterexample :
    callReadCount (reportQuota 1) ([some "boom", none] : List (Option String)) = 1 ∧
    callReadCount (reportQuota 1) ([some "boom", none] : List (Option String)) ≠ 2 := by
  constructor
  · rfl
  · decide

/-- C4 (amended): `Call` collects at most 2 completion reports when the
canonical function returned only an outbound data stream and at most 3
when it also returned an outbound error stream; given at least that many
pending reports, it collects exactly the full count if and only if every
report before the final read is nil — an earlier non-nil report ends
collection after fewer reads, while a non-nil final read still completes
the full count. -/
theorem Call_report_count_amended :
    (∀ reports : List (Option String),
        callReadCount (reportQuota 1) reports ≤ 2 ∧
        (2 ≤ reports.length →
          (callReadCount (reportQuota 1) reports = 2 ↔
            ∀ x ∈ reports.take 1, x = none))) ∧
    (∀ reports : List (Option String),
        callReadCount (reportQuota 2) reports ≤ 3 ∧
        (3 ≤ reports.length →
          (callReadCount (reportQuota 2) reports = 3 ↔
            ∀ x ∈ reports.take 2, x = none))) := by
  constructor
  · intro reports
    refine ⟨callReadCount_le 2 reports, fun hl => ?_⟩
    simpa using callReadCount_eq_iff 2 reports hl
  · intro reports
    refine ⟨callReadCount_le 3 reports, fun hl => ?_⟩
    simpa using callReadCount_eq_iff 3 reports hl

theorem Call_report_count_amended_witness :
    callReadCount (reportQuota 1) ([none, some "late"] : List (Option String)) = 2 ∧
    callReadCount (reportQuota 1) ([some "boom", none] : List (Option String)) ≤ 2 ∧
    callReadCount (reportQuota 2) ([none, none, some "last"] : List (Option String)) = 3 := by
  refine ⟨?_, ?_, ?_⟩
  · exact ((Call_report_count_amended.1 [none, some "late"]).2 (by simp)).mpr (by simp)
  · exact (Call_report_count_amended.1 [some "boom", none]).1
  · exact ((Call_report_count_amended.2 [none, none, some "last"]).2 (by simp)).mpr (by simp)

/-! ## The synthetic wrapper of direct functions -/

theorem sendPhase_cases (sig : FnType) (res : List GoVal) :
    sendPhase sig res = [] ∨
    sendPhase sig res = [.sendErr (lastOut sig res)] ∨
    sendPhase sig res = [.sendOut (firstOut res)] := by
  unfold sendPhase
  split
  · right; left; rfl
  · split
    · right; right; rfl
    · left; rfl

theorem sendPhase_countP_invoke (sig : FnType) (res : List GoVal) :
    (sendPhase sig res).countP WEvent.isInvoke = 0 := by
  rcases sendPhase_cases sig res with h | h | h <;>
    simp [h, WEvent.isInvoke]

theorem sendPhase_countP_closeOut (sig : FnType) (res : List GoVal) :
    (sendPhase sig res).countP WEvent.isCloseOut = 0 := by
  rcases sendPhase_cases sig res with h | h | h <;>
    simp [h, WEvent.isCloseOut]

theorem sendPhase_countP_closeErrs (sig : FnType) (res : List GoVal) :
    (sendPhase sig res).countP WEvent.isCloseErrs = 0 := by
  rcases sendPhase_cases sig res with h | h | h <;>
    simp [h, WEvent.isCloseErrs]

/-- C2 counterexample: a value delivered to the wrapper of a
zero-parameter inner function (reachable: an `application/json` envelope
unmarshals into the `struct\x7b\x7d` input type and is sent to the
wrapper) makes `reflect.Value.Call` panic on the argument count before
the inner function ever executes — the "otherwise invoked exactly once"
case of the claim fails there, although the deferred closes still run. -/
theorem wrapper_zero_arity_value_counterexample :
    ¬(([GoVal.structv] : List GoVal) = [] ∧
        isAcceptingInput (FnType.mk [] [GoType.stringT]) = true) ∧
    (wrapperRun ⟨⟨[], [GoType.stringT]⟩, fun _ => [GoVal.str "42"]⟩
        [GoVal.structv]).1.countP WEvent.isInvoke = 0 ∧
    (wrapperRun ⟨⟨[], [GoType.stringT]⟩, fun _ => [GoVal.str "42"]⟩
        [GoVal.structv]).2 = true ∧
    (wrapperRun ⟨⟨[], [GoType.stringT]⟩, fun _ => [GoVal.str "42"]⟩
        [GoVal.structv]).1.countP WEvent.isCloseOut = 1 := by
  exact ⟨by simp [isAcceptingInput], rfl, rfl, rfl⟩

/-- C2 (amended): the wrapper receives at most one value from the
inbound stream; when the stream closes without a value and the inner
function takes a parameter the inner function is never invoked; when a
value arrives for a zero-parameter inner function, `reflect.Value.Call`
panics without the inner function ever executing (the deferred closes
still run); in the remaining cases the inner function is invoked exactly
once without panic; and on every path both outbound streams are closed
exactly once. -/
theorem wrapper_single_invoke_and_close (f : OldFn) (stream : List GoVal)
    (hin : f.sig.ins.length ≤ 1) :
    wrapperRecvCount stream ≤ 1 ∧
    (stream = [] ∧ isAcceptingInput f.sig = true →
      (wrapperRun f stream).1.countP WEvent.isInvoke = 0 ∧
      (wrapperRun f stream).2 = false) ∧
    (stream ≠ [] ∧ isAcceptingInput f.sig = false →
      (wrapperRun f stream).1.countP WEvent.isInvoke = 0 ∧
      (wrapperRun f stream).2 = true) ∧
    ((stream = [] ∧ isAcceptingInput f.sig = false) ∨
        (stream ≠ [] ∧ isAcceptingInput f.sig = true) →
      (wrapperRun f stream).1.countP WEvent.isInvoke = 1 ∧
      (wrapperRun f stream).2 = false) ∧
    (wrapperRun f stream).1.countP WEvent.isCloseOut = 1 ∧
    (wrapperRun f stream).1.countP WEvent.isCloseErrs = 1 := by
  have h0 : isAcceptingInput f.sig = false → f.sig.ins.length = 0 := by
    intro hA
    simp only [isAcceptingInput, beq_eq_false_iff_ne, ne_eq] at hA
    omega
  refine ⟨by simp [wrapperRecvCount], ?_, ?_, ?_, ?_, ?_⟩ <;>
  · cases stream with
    | nil =>
      by_cases hA : isAcceptingInput f.sig = true
      · simp_all [wrapperRun, WEvent.isInvoke, WEvent.isCloseOut, WEvent.isCloseErrs]
      · have hz := h0 (by simpa using hA)
        simp_all [wrapperRun, WEvent.isInvoke, WEvent.isCloseOut, WEvent.isCloseErrs,
          sendPhase_countP_invoke, sendPhase_countP_closeOut, sendPhase_countP_closeErrs]
    | cons i rest =>
      by_cases h1 : f.sig.ins.length = 1 <;>
        simp_all [wrapperRun, isAcceptingInput, WEvent.isInvoke, WEvent.isCloseOut,
          WEvent.isCloseErrs, sendPhase_countP_invoke, sendPhase_countP_closeOut,
          sendPhase_countP_closeErrs]

theorem wrapper_single_invoke_and_close_witness :
    wrapperRecvCount [GoVal.str "world"] ≤ 1 ∧
    (wrapperRun ⟨⟨[GoType.stringT], [GoType.stringT, GoType.errorT]⟩,
        fun _ => [GoVal.str "Hello world", GoVal.errv none]⟩
      [GoVal.str "world"]).1.countP WEvent.isInvoke = 1 := by
  have h := wrapper_single_invoke_and_close
    ⟨⟨[GoType.stringT], [GoType.stringT, GoType.errorT]⟩,
      fun _ => [GoVal.str "Hello world", GoVal.errv none]⟩ [GoVal.str "world"] (by decide)
  exact ⟨h.1, (h.2.2.2.1 (Or.inr ⟨by simp, by decide⟩)).1⟩

/-- C3: when the wrapper calls the inner function, a non-nil trailing
error return is sent to the outbound error stream and nothing to the
outbound data stream; otherwise a non-error data return is sent to the
outbound data stream; no run of the wrapper ever sends both. -/
theorem wrapper_error_xor_data :
    (∀ (sig : FnType) (res : List GoVal),
        isErroring sig = true → (lastOut sig res).isNil = false →
        sendPhase sig res = [.sendErr (lastOut sig res)]) ∧
    (∀ (sig : FnType) (res : List GoVal),
        (isErroring sig = false ∨ (lastOut sig res).isNil = true) →
        hasReturnValue sig = true →
        sendPhase sig res = [.sendOut (firstOut res)]) ∧
    (∀ (f : OldFn) (stream : List GoVal),
        (wrapperRun f stream).1.countP WEvent.isSendErr = 0 ∨
        (wrapperRun f stream).1.countP WEvent.isSendOut = 0) := by
  refine ⟨?_, ?_, ?_⟩
  · intro sig res hErr hNil
    simp [sendPhase, hErr, hNil]
  · intro sig res h hRet
    rcases h with h | h <;> simp [sendPhase, h, hRet]
  · intro f stream
    have key : ∀ sig res,
        (sendPhase sig res).countP WEvent.isSendErr = 0 ∨
        (sendPhase sig res).countP WEvent.isSendOut = 0 := by
      intro sig res
      rcases sendPhase_cases sig res with h | h | h
      · left; simp [h]
      · right; simp [h, WEvent.isSendOut]
      · left; simp [h, WEvent.isSendErr]
    cases stream with
    | nil =>
      by_cases hA : isAcceptingInput f.sig = true
      · left; simp [wrapperRun, hA, WEvent.isSendErr]
      · by_cases h0 : f.sig.ins.length = 0
        · rcases key f.sig (f.impl none) with h | h
          · left; simp [wrapperRun, hA, h0, WEvent.isSendErr, h]
          · right; simp [wrapperRun, hA, h0, WEvent.isSendOut, h]
        · left; simp [wrapperRun, hA, h0, WEvent.isSendErr]
    | cons i rest =>
      by_cases h1 : f.sig.ins.length = 1
      · rcases key f.sig (f.impl (some i)) with h | h
        · left; simp [wrapperRun, h1, WEvent.isSendErr, h]
        · right; simp [wrapperRun, h1, WEvent.isSendOut, h]
      · left; simp [wrapperRun, h1, WEvent.isSendErr]

theorem wrapper_error_xor_data_witness :
    sendPhase ⟨[GoType.stringT], [GoType.stringT, GoType.errorT]⟩
        [GoVal.str "", GoVal.errv (some "error condition")] =
      [.sendErr (GoVal.errv (some "error condition"))] ∧
    sendPhase ⟨[GoType.stringT], [GoType.stringT, GoType.errorT]⟩
        [GoVal.str "Hello world", GoVal.errv none] =
      [.sendOut (GoVal.str "Hello world")] := by
  constructor
  · have h := wrapper_error_xor_data.1
      ⟨[GoType.stringT], [GoType.stringT, GoType.errorT]⟩
      [GoVal.str "", GoVal.errv (some "error condition")] (by decide) (by decide)
    simpa [lastOut] using h
  · have h := wrapper_error_xor_data.2.1
      ⟨[GoType.stringT], [GoType.stringT, GoType.errorT]⟩
      [GoVal.str "Hello world", GoVal.errv none] (by right; decide) (by decide)
    simpa [firstOut] using h

/-! ## canonicalize: accepted and rejected signatures -/

theorem canonicalize_eq_direct (ins outs : List GoType)
    (hnb : isChanType (ins.headD GoType.structT) = false ∨
           isChanType (outs.headD GoType.structT) = false)
    (h2 : outs.length ≤ 2) :
    canonicalize ⟨ins, outs⟩ = canonicalizeDirect ⟨ins, outs⟩ := by
  have h2' : ¬ outs.length > 2 := by omega
  cases ins with
  | nil =>
    cases outs with
    | nil => simp [canonicalize]
    | cons o os => cases o <;> simp_all [canonicalize, isChanType]
  | cons i is =>
    cases outs with
    | nil => cases i <;> simp_all [canonicalize, isChanType]
    | cons o os => cases i <;> cases o <;> simp_all [canonicalize, isChanType]

/-- C5: resolution-time signature validation.  A streaming function
(receive-capable channel in first parameter and first result) whose
present second result is not a receive-capable channel of `error` fails;
a direct function with more than one parameter or more than two results
fails; and all ten supported shapes canonicalize without error. -/
theorem canonicalize_signature_checks :
    (∀ (dIn dOut : GoDir) (eIn eOut : GoType) (o1 : GoType),
        canReceive (GoType.chan dIn eIn) = true →
        canReceive (GoType.chan dOut eOut) = true →
        ¬(isChanType o1 = true ∧ chanElemD o1 = GoType.errorT ∧ canReceive o1 = true) →
        canonicalize ⟨[.chan dIn eIn], [.chan dOut eOut, o1]⟩ =
          .error "second return type of function should be ([<-]chan error)") ∧
    (∀ (ins outs : List GoType),
        isChanType (ins.headD GoType.structT) = false ∨
          isChanType (outs.headD GoType.structT) = false →
        ins.length > 1 ∨ outs.length > 2 →
        (canonicalize ⟨ins, outs⟩).isOk = false) ∧
    ((∀ (dIn dOut : GoDir) (eIn eOut : GoType),
        canReceive (GoType.chan dIn eIn) = true →
        canReceive (GoType.chan dOut eOut) = true →
        canonicalize ⟨[.chan dIn eIn], [.chan dOut eOut]⟩ = .ok (.streaming eIn)) ∧
     (∀ (dIn dOut dErr : GoDir) (eIn eOut : GoType),
        canReceive (GoType.chan dIn eIn) = true →
        canReceive (GoType.chan dOut eOut) = true →
        canReceive (GoType.chan dErr GoType.errorT) = true →
        canonicalize ⟨[.chan dIn eIn], [.chan dOut eOut, .chan dErr GoType.errorT]⟩ =
          .ok (.streaming eIn)) ∧
     (∀ (X Y : GoType), isChanType X = false → isChanType Y = false →
        Y ≠ GoType.errorT →
        canonicalize ⟨[X], [Y, GoType.errorT]⟩ = .ok (.wrapped X Y)) ∧
     (∀ (X Y : GoType), isChanType X = false → isChanType Y = false →
        Y ≠ GoType.errorT →
        canonicalize ⟨[X], [Y]⟩ = .ok (.wrapped X Y)) ∧
     (∀ X : GoType, isChanType X = false →
        canonicalize ⟨[X], []⟩ = .ok (.wrapped X GoType.structT)) ∧
     (∀ X : GoType, isChanType X = false →
        canonicalize ⟨[X], [GoType.errorT]⟩ = .ok (.wrapped X GoType.structT)) ∧
     (∀ Y : GoType, isChanType Y = false → Y ≠ GoType.errorT →
        canonicalize ⟨[], [Y, GoType.errorT]⟩ = .ok (.wrapped GoType.structT Y)) ∧
     (∀ Y : GoType, isChanType Y = false → Y ≠ GoType.errorT →
        canonicalize ⟨[], [Y]⟩ = .ok (.wrapped GoType.structT Y)) ∧
     (canonicalize ⟨[], []⟩ = .ok (.wrapped GoType.structT GoType.structT)) ∧
     (canonicalize ⟨[], [GoType.errorT]⟩ = .ok (.wrapped GoType.structT GoType.structT))) := by
  refine ⟨?_, ?_, ?_, ?_, ?_, ?_, ?_, ?_, ?_, ?_, ?_, ?_⟩
  · intro dIn dOut eIn eOut o1 hIn hOut hBad
    simp only [canonicalize]
    rw [if_neg (by simp)]
    simp only [List.head?]
    rw [if_neg (by simp [hIn, hOut])]
    simp only [List.get?]
    rw [if_neg hBad]
  · intro ins outs hnb har
    by_cases h2 : outs.length > 2
    · simp only [canonicalize]
      rw [if_pos h2]
      rfl
    · rw [canonicalize_eq_direct ins outs hnb (by omega)]
      have h1 : ins.length > 1 := by omega
      simp only [canonicalizeDirect]
      rw [if_pos h1]
      rfl
  · intro dIn dOut eIn eOut hIn hOut
    simp only [canonicalize]
    rw [if_neg (by simp)]
    simp only [List.head?]
    rw [if_neg (by simp [hIn, hOut])]
    simp [List.get?]
  · intro dIn dOut dErr eIn eOut hIn hOut hErr
    simp only [canonicalize]
    rw [if_neg (by simp)]
    simp only [List.head?]
    rw [if_neg (by simp [hIn, hOut])]
    simp only [List.get?]
    rw [if_pos (by simp [isChanType, chanElemD, hErr])]
  · intro X Y hX hY hYe
    rw [canonicalize_eq_direct [X] [Y, GoType.errorT] (Or.inl (by simpa using hX)) (by simp)]
    simp [canonicalizeDirect, hasReturnValue, hYe]
  · intro X Y hX hY hYe
    rw [canonicalize_eq_direct [X] [Y] (Or.inl (by simpa using hX)) (by simp)]
    simp [canonicalizeDirect, hasReturnValue, hYe]
  · intro X hX
    rw [canonicalize_eq_direct [X] [] (Or.inl (by simpa using hX)) (by simp)]
    simp [canonicalizeDirect, hasReturnValue]
  · intro X hX
    rw [canonicalize_eq_direct [X] [GoType.errorT] (Or.inl (by simpa using hX)) (by simp)]
    simp [canonicalizeDirect, hasReturnValue]
  · intro Y hY hYe
    rw [canonicalize_eq_direct [] [Y, GoType.errorT] (Or.inl (by simp [isChanType])) (by simp)]
    simp [canonicalizeDirect, hasReturnValue, hYe]
  · intro Y hY hYe
    rw [canonicalize_eq_direct [] [Y] (Or.inl (by simp [isChanType])) (by simp)]
    simp [canonicalizeDirect, hasReturnValue, hYe]
  · rfl
  · rfl

theorem canonicalize_signature_checks_witness :
    canonicalize ⟨[.chan .recvOnly GoType.stringT],
        [.chan .recvOnly GoType.stringT, GoType.stringT]⟩ =
      .error "second return type of function should be ([<-]chan error)" ∧
    (canonicalize ⟨[GoType.stringT, GoType.stringT], [GoType.stringT]⟩).isOk = false ∧
    canonicalize ⟨[GoType.stringT], [GoType.stringT, GoType.errorT]⟩ =
      .ok (.wrapped GoType.stringT GoType.stringT) := by
  refine ⟨?_, ?_, ?_⟩
  · exact canonicalize_signature_checks.1 .recvOnly .recvOnly GoType.stringT GoType.stringT
      GoType.stringT (by decide) (by decide) (by decide)
  · exact canonicalize_signature_checks.2.1 [GoType.stringT, GoType.stringT] [GoType.stringT]
      (by decide) (by decide)
  · exact canonicalize_signature_checks.2.2.2.2.1 GoType.stringT GoType.stringT
      (by decide) (by decide) (by decide)

/-! ## Content negotiation -/

theorem negotiateStep_of_not_match (offer : String) (st : NegState) (spec : AcceptSpec)
    (h : specMatchesOffer spec offer = false) : negotiateStep offer st spec = st := by
  by_cases hq : spec.q = 0
  · simp [negotiateStep, hq]
  · have hstar : ¬ spec.value = "*/*" := by
      intro he; simp [specMatchesOffer, hq, he] at h
    have hwild : ¬ (['/', '*'].isSuffixOf spec.value.data = true ∧
        spec.value.data.dropLast.isPrefixOf offer.data = true) := by
      intro he; simp [specMatchesOffer, hq, he.1, he.2] at h
    have hexact : ¬ spec.value = offer := by
      intro he; simp [specMatchesOffer, hq, he] at h
    unfold negotiateStep
    rw [if_neg hq]
    by_cases hlt : spec.q < st.bestQ
    · rw [if_pos hlt]
    · rw [if_neg hlt, if_neg hstar]
      by_cases hew : ['/', '*'].isSuffixOf spec.value.data = true
      · rw [if_pos hew, if_neg (fun hc => hwild ⟨hew, hc.1⟩)]
      · rw [if_neg hew, if_neg (fun hc => hexact hc.1)]

theorem specsFold_no_match (offer : String) (specs : List AcceptSpec) (st : NegState)
    (h : ∀ s ∈ specs, specMatchesOffer s offer = false) :
    specs.foldl (negotiateStep offer) st = st := by
  induction specs generalizing st with
  | nil => rfl
  | cons s rest ih =>
    rw [List.foldl_cons, negotiateStep_of_not_match offer st s (h s (by simp))]
    exact ih st (fun x hx => h x (by simp [hx]))

theorem negotiateContentType_no_match (accept offers : List String) (defaultOffer : String)
    (h : ∀ o ∈ offers, ∀ s ∈ parseAccept accept, specMatchesOffer s o = false) :
    negotiateContentType accept offers defaultOffer = defaultOffer := by
  have hfold : ∀ (os : List String) (st : NegState),
      (∀ o ∈ os, ∀ s ∈ parseAccept accept, specMatchesOffer s o = false) →
      os.foldl (fun st offer => (parseAccept accept).foldl (negotiateStep offer) st) st = st := by
    intro os
    induction os with
    | nil => intro st _; rfl
    | cons o rest ih =>
      intro st hall
      rw [List.foldl_cons, specsFold_no_match o (parseAccept accept) st (hall o (by simp))]
      exact ih st (fun x hx s hs => hall x (by simp [hx]) s hs)
  show (offers.foldl (fun st offer => (parseAccept accept).foldl (negotiateStep offer) st)
      ⟨defaultOffer, -1, 3⟩).bestOffer = defaultOffer
  rw [hfold offers _ h]

theorem bestMarshaller_of_no_match (accept : Option (List String))
    (marshallers : List (MediaType × MarshallingImpl))
    (h : ∀ o ∈ marshallers.map (·.1),
        ∀ s ∈ parseAccept (accept.getD ["text/plain"]), specMatchesOffer s o = false)
    (hkey : (marshallers.lookup "").isSome = false) :
    bestMarshaller accept marshallers = (none, "") := by
  have hlk : marshallers.lookup "" = none := by
    cases hc : marshallers.lookup "" with
    | none => rfl
    | some m => rw [hc] at hkey; simp at hkey
  cases accept with
  | none =>
    show (marshallers.lookup (negotiateContentType ["text/plain"] (marshallers.map (·.1)) ""),
        negotiateContentType ["text/plain"] (marshallers.map (·.1)) "") = (none, "")
    rw [negotiateContentType_no_match _ _ _ (by simpa using h)]
    rw [hlk]
  | some a =>
    show (marshallers.lookup (negotiateContentType a (marshallers.map (·.1)) ""),
        negotiateContentType a (marshallers.map (·.1)) "") = (none, "")
    rw [negotiateContentType_no_match _ _ _ (by simpa using h)]
    rw [hlk]

/-- C6 counterexample: with the offer map the code builds for a string
value (text/plain and application/json both present), an accept list
that is present but empty matches no offer — `bestMarshaller` yields
`(none, "")`, not text/plain as the claim states for "empty". -/
theorem bestMarshaller_empty_accept_counterexample :
    (bestMarshaller (some [])
      (buildSupportedMarshallers builtinMarshallers GoType.stringT)).1 = none ∧
    (bestMarshaller (some [])
      (buildSupportedMarshallers builtinMarshallers GoType.stringT)).2 ≠ "text/plain" := by
  exact ⟨rfl, by decide⟩

/-- C6 (amended): `bestMarshaller` treats a nil (absent) accept list as
text/plain; when no offered media type matches the accept list it
returns `(none, "")`, which `functionResultToMessage` turns into an
`AcceptNotSupported` error; with offers built for a string value it
picks application/json for accept `["application/json"]` and text/plain
for a nil accept; a present-but-empty accept list matches no offer. -/
theorem bestMarshaller_negotiation :
    (∀ m : List (MediaType × MarshallingImpl),
        bestMarshaller none m = bestMarshaller (some ["text/plain"]) m) ∧
    (∀ (accept : Option (List String)) (m : List (MediaType × MarshallingImpl)),
        (∀ o ∈ m.map (·.1), ∀ s ∈ parseAccept (accept.getD ["text/plain"]),
          specMatchesOffer s o = false) →
        (m.lookup "").isSome = false →
        bestMarshaller accept m = (none, "")) ∧
    (∀ (ms : List MarshallingImpl) (value : GoVal) (accept : Option (List String)),
        (bestMarshaller accept (buildSupportedMarshallers ms (goTypeOf value))).1 = none →
        functionResultToMessage ms value accept =
          .error { code := AcceptNotSupported, cause := some "unsupported content types",
                   message := "" }) ∧
    (bestMarshaller (some ["application/json"])
        (buildSupportedMarshallers builtinMarshallers GoType.stringT) =
      (some jsonMarshalling, "application/json")) ∧
    (bestMarshaller none (buildSupportedMarshallers builtinMarshallers GoType.stringT) =
      (some textMarshalling, "text/plain")) := by
  refine ⟨?_, ?_, ?_, by rfl, by rfl⟩
  · intro m; rfl
  · intro accept m h hkey
    exact bestMarshaller_of_no_match accept m h hkey
  · intro ms value accept h
    rcases hB : bestMarshaller accept (buildSupportedMarshallers ms (goTypeOf value)) with ⟨o, ct⟩
    rw [hB] at h
    simp only at h
    subst h
    simp only [functionResultToMessage, hB]

theorem bestMarshaller_negotiation_witness :
    (∀ o ∈ ((buildSupportedMarshallers builtinMarshallers GoType.stringT).map (·.1)),
      ∀ s ∈ parseAccept ((some ["bogus/type"]).getD ["text/plain"]),
        specMatchesOffer s o = false) ∧
    bestMarshaller (some ["bogus/type"])
      (buildSupportedMarshallers builtinMarshallers GoType.stringT) = (none, "") := by
  refine ⟨by decide, ?_⟩
  exact bestMarshaller_negotiation.2.1 (some ["bogus/type"])
    (buildSupportedMarshallers builtinMarshallers GoType.stringT) (by decide) (by decide)

/-! ## Per-message decoding errors and the inbound abort -/

/-- C7: a missing Content-Type header means text/plain; when no
registered unmarshaller accepts the (input type, content type) pair the
message fails with `ContentTypeNotSupported`; a failing unmarshal fails
with `ErrorWhileUnmarshalling`; and in either case the inbound goroutine
closes the inbound data stream and posts the error as the completion
report, aborting the call. -/
theorem messageToFunctionArgs_error_handling :
    (∀ m : Message, lookupHeader m ContentTypeHeader = none →
        contentTypeOf m = AssumedContentType) ∧
    (∀ (um : List MarshallingImpl) (inType : GoType) (m : Message),
        (∀ u ∈ um, u.canUnmarshall inType (contentTypeOf m) = false) →
        messageToFunctionArgs um inType m = .error (unsupportedContentType (contentTypeOf m))) ∧
    (∀ (um : List MarshallingImpl) (inType : GoType) (m : Message)
        (u : MarshallingImpl) (e : String),
        um.find? (fun x => x.canUnmarshall inType (contentTypeOf m)) = some u →
        u.unmarshall m.payload inType (contentTypeOf m) = .error e →
        messageToFunctionArgs um inType m =
          .error { code := ErrorWhileUnmarshalling, cause := some e, message := "" }) ∧
    (∀ (um : List MarshallingImpl) (inType : GoType) (m : Message)
        (rest : List RecvEvent) (cancelled : List Bool) (ie : InvokerError),
        messageToFunctionArgs um inType m = .error ie →
        sidecar2FunctionRun um inType (.msg m :: rest) cancelled =
          some (acceptPublishEvents m ++ [.closeInput, .report (some (.invoker ie))])) := by
  refine ⟨?_, ?_, ?_, ?_⟩
  · intro m h
    simp [contentTypeOf, h]
  · intro um inType m h
    have hf : um.find? (fun x => x.canUnmarshall inType (contentTypeOf m)) = none :=
      List.find?_eq_none.mpr (fun x hx => by simp [h x hx])
    simp [messageToFunctionArgs, hf]
  · intro um inType m u e hf hu
    simp [messageToFunctionArgs, hf, hu]
  · intro um inType m rest cancelled ie h
    simp [sidecar2FunctionRun, h]

theorem messageToFunctionArgs_error_handling_witness :
    (∀ u ∈ builtinMarshallers,
        u.canUnmarshall GoType.stringT
          (contentTypeOf ⟨"world", [(ContentTypeHeader, ["bogus/focus"])]⟩) = false) ∧
    messageToFunctionArgs builtinMarshallers GoType.stringT
        ⟨"world", [(ContentTypeHeader, ["bogus/focus"])]⟩ =
      .error (unsupportedContentType "bogus/focus") ∧
    sidecar2FunctionRun builtinMarshallers GoType.stringT
        [.msg ⟨"world", [(ContentTypeHeader, ["bogus/focus"])]⟩, .eof] [] =
      some [.closeInput, .report (some (.invoker (unsupportedContentType "bogus/focus")))] := by
  have hall : ∀ u ∈ builtinMarshallers,
      u.canUnmarshall GoType.stringT
        (contentTypeOf ⟨"world", [(ContentTypeHeader, ["bogus/focus"])]⟩) = false := by
    decide
  have h2 := messageToFunctionArgs_error_handling.2.1 builtinMarshallers GoType.stringT
    ⟨"world", [(ContentTypeHeader, ["bogus/focus"])]⟩ hall
  have hct : contentTypeOf ⟨"world", [(ContentTypeHeader, ["bogus/focus"])]⟩ = "bogus/focus" := rfl
  rw [hct] at h2
  have h4 := messageToFunctionArgs_error_handling.2.2.2 builtinMarshallers GoType.stringT
    ⟨"world", [(ContentTypeHeader, ["bogus/focus"])]⟩ [.eof] []
    (unsupportedContentType "bogus/focus") h2
  refine ⟨hall, h2, ?_⟩
  rw [h4]
  rfl

/-! ## Closing the inbound stream -/

theorem acceptPublishEvents_no_close (m : Message) :
    (acceptPublishEvents m).countP S2FEvent.isCloseInput = 0 := by
  unfold acceptPublishEvents
  cases lookupHeader m AcceptHeader <;> simp [S2FEvent.isCloseInput]

/-- C9 counterexample: the inbound data stream is a plain Go channel,
and closing a Go channel twice panics — the second `Close` is not a
no-op as the claim states. -/
theorem inbound_double_close_counterexample :
    chanClose makeChannelState = .ok { closed := true } ∧
    chanClose { closed := true } = .error "close of closed channel" :=
  ⟨rfl, rfl⟩

/-- C9 (amended): every terminating run of the inbound goroutine closes
the inbound data stream exactly once (on end-of-input, receive error,
unmarshalling failure, or observed cancellation), so the panicking
double close of a Go channel never occurs. -/
theorem inbound_close_once :
    (∀ (um : List MarshallingImpl) (inType : GoType) (events : List RecvEvent)
        (cancelled : List Bool) (tr : List S2FEvent),
        sidecar2FunctionRun um inType events cancelled = some tr →
        tr.countP S2FEvent.isCloseInput = 1) ∧
    (∀ c : GoChan, c.closed = true → chanClose c = .error "close of closed channel") := by
  constructor
  · intro um inType events
    induction events with
    | nil => intro cancelled tr h; simp [sidecar2FunctionRun] at h
    | cons ev rest ih =>
      intro cancelled tr h
      cases ev with
      | eof =>
        simp only [sidecar2FunctionRun, Option.some_inj] at h
        subst h
        simp [S2FEvent.isCloseInput]
      | recvError e =>
        simp only [sidecar2FunctionRun, Option.some_inj] at h
        subst h
        simp [S2FEvent.isCloseInput]
      | msg m =>
        simp only [sidecar2FunctionRun] at h
        cases hm : messageToFunctionArgs um inType m with
        | error ie =>
          rw [hm] at h
          simp only [Option.some_inj] at h
          subst h
          simp [S2FEvent.isCloseInput, acceptPublishEvents_no_close]
        | ok v =>
          rw [hm] at h
          simp only at h
          by_cases hc : cancelled.headD false = true
          · rw [if_pos hc] at h
            simp only [Option.some_inj] at h
            subst h
            simp [S2FEvent.isCloseInput, acceptPublishEvents_no_close]
          · rw [if_neg hc] at h
            cases hrec : sidecar2FunctionRun um inType rest cancelled.tail with
            | none => rw [hrec] at h; simp at h
            | some tr' =>
              rw [hrec] at h
              simp only [Option.map_some', Option.some_inj] at h
              subst h
              have := ih cancelled.tail tr' hrec
              simp [S2FEvent.isCloseInput, acceptPublishEvents_no_close, this]
  · intro c hc
    simp [chanClose, hc]

theorem inbound_close_once_witness :
    List.countP S2FEvent.isCloseInput [S2FEvent.closeInput, S2FEvent.report none] = 1 :=
  inbound_close_once.1 builtinMarshallers GoType.stringT [.eof] []
    [S2FEvent.closeInput, S2FEvent.report none] rfl

/-! ## Resolution of the handler query parameter -/

/-- C10: for every URI with an accepted scheme whose plugin loads but
whose query string has no `handler` key, `NewInvoker` evaluates
`url.Query()[Handler][0]` on an empty slice and panics instead of
returning an error value. -/
theorem NewInvoker_missing_handler_panics {P : Type}
    (openPlugin : String → Except String P)
    (lookupSymbol : P → String → Except String FnType) (u : ParsedURL) (lib : P)
    (hscheme : u.scheme = "" ∨ u.scheme = "file")
    (hopen : openPlugin u.path = .ok lib)
    (hmissing : u.query.lookup HandlerParam = none) :
    NewInvoker openPlugin lookupSymbol u = .panic "runtime error: index out of range" := by
  unfold NewInvoker
  rw [if_neg (by rcases hscheme with h | h <;> simp [h])]
  rw [hopen]
  simp [hmissing]

theorem NewInvoker_missing_handler_panics_witness :
    NewInvoker (fun _ => Except.ok ()) (fun _ _ => Except.ok (⟨[], []⟩ : FnType))
      ⟨"", "/fn.so", []⟩ = .panic "runtime error: index out of range" :=
  NewInvoker_missing_handler_panics (fun _ => Except.ok ())
    (fun _ _ => Except.ok (⟨[], []⟩ : FnType)) ⟨"", "/fn.so", []⟩ ()
    (Or.inl rfl) rfl rfl

/-! ## Marshalling round trips -/

theorem hexDigitVal_hexDig (n : Nat) (h : n < 16) : hexDigitVal (hexDig n) = some n := by
  interval_cases n <;> rfl

theorem jsonStrLoop_encodeChar (c : Char) (fuel : Nat) (t : List Char) :
    jsonStrLoop (fuel + 1) (jsonEncodeChar c ++ t) = (jsonStrLoop fuel t).map (c :: ·) := by
  by_cases h1 : c = '"'
  · subst h1; rfl
  by_cases h2 : c = '\\'
  · subst h2; rfl
  by_cases h3 : c = '\n'
  · subst h3; rfl
  by_cases h4 : c = '\r'
  · subst h4; rfl
  by_cases h5 : c = '\t'
  · subst h5; rfl
  by_cases h6 : c.toNat < 32
  · have e1 : jsonEncodeChar c =
        ['\\', 'u', '0', '0', hexDig (c.toNat / 16), hexDig (c.toNat % 16)] := by
      unfold jsonEncodeChar
      rw [if_neg h1, if_neg h2, if_neg h3, if_neg h4, if_neg h5, if_pos h6]
    have hd1 : hexDigitVal (hexDig (c.toNat / 16)) = some (c.toNat / 16) :=
      hexDigitVal_hexDig _ (by omega)
    have hd2 : hexDigitVal (hexDig (c.toNat % 16)) = some (c.toNat % 16) :=
      hexDigitVal_hexDig _ (by omega)
    have hhex : hex4 '0' '0' (hexDig (c.toNat / 16)) (hexDig (c.toNat % 16)) =
        some c.toNat := by
      have h0 : hexDigitVal '0' = some 0 := rfl
      simp only [hex4, h0, hd1, hd2, Option.some_bind]
      have harith : 0 * 4096 + 0 * 256 + c.toNat / 16 * 16 + c.toNat % 16 = c.toNat := by
        omega
      simp [harith]
      omega
    rw [e1]
    simp only [List.cons_append]
    simp only [jsonStrLoop, show jsonEscChar 'u' = none from rfl, hhex]
    norm_num
    rw [if_pos (Or.inl (by omega : c.toNat < 55296))]
    rfl
  by_cases h7 : c = '<'
  · subst h7; rfl
  by_cases h8 : c = '>'
  · subst h8; rfl
  by_cases h9 : c = '&'
  · subst h9; rfl
  by_cases h10 : c.toNat = 0x2028
  · have hc : c = Char.ofNat 0x2028 := by rw [← Char.ofNat_toNat c, h10]
    subst hc; rfl
  by_cases h11 : c.toNat = 0x2029
  · have hc : c = Char.ofNat 0x2029 := by rw [← Char.ofNat_toNat c, h11]
    subst hc; rfl
  have e1 : jsonEncodeChar c = [c] := by
    unfold jsonEncodeChar
    rw [if_neg h1, if_neg h2, if_neg h3, if_neg h4, if_neg h5, if_neg h6, if_neg h7,
      if_neg h8, if_neg h9, if_neg h10, if_neg h11]
  rw [e1]
  simp only [List.singleton_append]
  simp only [jsonStrLoop]
  rw [if_neg h1, if_neg h2, if_neg h6]

theorem jsonStrLoop_encodeBody (l : List Char) :
    ∀ (fuel : Nat) (t : List Char),
      jsonStrLoop (l.length + (fuel + 1)) (jsonEncodeBody l ++ '"' :: t) = .ok l := by
  induction l with
  | nil => intro fuel t; rfl
  | cons c cs ih =>
    intro fuel t
    have harith : (c :: cs).length + (fuel + 1) = (cs.length + (fuel + 1)) + 1 := by
      simp [List.length_cons]; omega
    have happ : jsonEncodeBody (c :: cs) ++ '"' :: t =
        jsonEncodeChar c ++ (jsonEncodeBody cs ++ '"' :: t) := by
      simp [jsonEncodeBody, List.append_assoc]
    rw [harith, happ, jsonStrLoop_encodeChar, ih fuel t]
    rfl

theorem jsonEncodeChar_length_pos (c : Char) : 1 ≤ (jsonEncodeChar c).length := by
  by_cases h1 : c = '"'
  · subst h1; decide
  by_cases h2 : c = '\\'
  · subst h2; decide
  by_cases h3 : c = '\n'
  · subst h3; decide
  by_cases h4 : c = '\r'
  · subst h4; decide
  by_cases h5 : c = '\t'
  · subst h5; decide
  by_cases h6 : c.toNat < 32
  · have e1 : jsonEncodeChar c =
        ['\\', 'u', '0', '0', hexDig (c.toNat / 16), hexDig (c.toNat % 16)] := by
      unfold jsonEncodeChar
      rw [if_neg h1, if_neg h2, if_neg h3, if_neg h4, if_neg h5, if_pos h6]
    simp [e1]
  by_cases h7 : c = '<'
  · subst h7; decide
  by_cases h8 : c = '>'
  · subst h8; decide
  by_cases h9 : c = '&'
  · subst h9; decide
  by_cases h10 : c.toNat = 0x2028
  · have hc : c = Char.ofNat 0x2028 := by rw [← Char.ofNat_toNat c, h10]
    subst hc; decide
  by_cases h11 : c.toNat = 0x2029
  · have hc : c = Char.ofNat 0x2029 := by rw [← Char.ofNat_toNat c, h11]
    subst hc; decide
  have e1 : jsonEncodeChar c = [c] := by
    unfold jsonEncodeChar
    rw [if_neg h1, if_neg h2, if_neg h3, if_neg h4, if_neg h5, if_neg h6, if_neg h7,
      if_neg h8, if_neg h9, if_neg h10, if_neg h11]
  simp [e1]

theorem jsonEncodeBody_length_ge (l : List Char) :
    l.length ≤ (jsonEncodeBody l).length := by
  induction l with
  | nil => simp [jsonEncodeBody]
  | cons c cs ih =>
    have := jsonEncodeChar_length_pos c
    simp only [jsonEncodeBody, List.length_append, List.length_cons]
    omega

theorem jsonStrLoop_encodeBody_of_fuel (l : List Char) (fuel : Nat) (t : List Char)
    (h : l.length + 1 ≤ fuel) :
    jsonStrLoop fuel (jsonEncodeBody l ++ '"' :: t) = .ok l := by
  obtain ⟨k, rfl⟩ : ∃ k, fuel = l.length + (k + 1) := ⟨fuel - l.length - 1, by omega⟩
  exact jsonStrLoop_encodeBody l k t

/-- Decoding the encoder's output returns the original string: the
modelled `json.Decode` is a left inverse of the modelled `json.Encode`
on string values. -/
theorem jsonUnmarshall_jsonMarshall (s : String) :
    jsonUnmarshallString (jsonMarshallString s) = .ok s := by
  have hfuel : s.data.length + 1 ≤ (jsonEncodeBody s.data ++ '"' :: ['\n']).length + 1 := by
    have := jsonEncodeBody_length_ge s.data
    simp only [List.length_append, List.length_cons]
    omega
  have hmain := jsonStrLoop_encodeBody_of_fuel s.data
    ((jsonEncodeBody s.data ++ '"' :: ['\n']).length + 1) ['\n'] hfuel
  show (jsonStrLoop ((jsonEncodeBody s.data ++ '"' :: ['\n']).length + 1)
      (jsonEncodeBody s.data ++ '"' :: ['\n'])).map (fun l => (⟨l⟩ : String)) = Except.ok s
  rw [hmain]
  rfl

/-- C8 counterexample, both target-type families: the JSON text
`"\u0041"` is valid JSON for a string target and decodes to `"A"`, but
re-encoding yields `"A"` plus a newline — different bytes even after
discarding insignificant whitespace; and for a struct target, an object
member with no corresponding field (`Extra`) is dropped on decode, so
the re-encoded bytes differ from the original even as JSON documents —
decoding both into a wider struct recovers `Extra` from the original but
not from the re-encoded bytes. -/
theorem json_roundtrip_counterexample :
    jsonUnmarshallString "\"\\u0041\"" = .ok "A" ∧
    jsonMarshallString "A" = "\"A\"\n" ∧
    jsonWsInsensitiveEq (jsonMarshallString "A") "\"\\u0041\"" = false ∧
    jsonDecodeInto (GoType.structOf ["Word"])
        "\x7b\"Word\":\"w\",\"Extra\":\"x\"\x7d" =
      .ok (GoVal.structOf [("Word", "w")]) ∧
    jsonMarshallGoVal (GoVal.structOf [("Word", "w")]) =
      .ok "\x7b\"Word\":\"w\"\x7d\n" ∧
    jsonWsInsensitiveEq "\x7b\"Word\":\"w\"\x7d\n"
        "\x7b\"Word\":\"w\",\"Extra\":\"x\"\x7d" = false ∧
    jsonDecodeInto (GoType.structOf ["Word", "Extra"])
        "\x7b\"Word\":\"w\",\"Extra\":\"x\"\x7d" =
      .ok (GoVal.structOf [("Word", "w"), ("Extra", "x")]) ∧
    jsonDecodeInto (GoType.structOf ["Word", "Extra"])
        "\x7b\"Word\":\"w\"\x7d\n" =
      .ok (GoVal.structOf [("Word", "w"), ("Extra", "")]) := by
  refine ⟨by rfl, by rfl, by rfl, by rfl, by rfl, by rfl, by rfl, by rfl⟩

/-- C8 (amended): marshalling the unmarshalled value does not reproduce
the original bytes in general.  For string targets, escape sequences are
re-encoded canonically and a newline is appended, but the re-encoded
bytes still unmarshal to the same value, for every valid input; for
struct targets, object members without a corresponding field are dropped
(shown on a concrete instance, whose decoded value likewise survives
re-encoding); for every string payload the text/plain round trip is
byte-identical. -/
theorem marshalling_roundtrip :
    (∀ (b v : String), jsonUnmarshallString b = .ok v →
        jsonUnmarshallString (jsonMarshallString v) = .ok v) ∧
    (jsonDecodeInto (GoType.structOf ["Word"])
        "\x7b\"Word\":\"w\",\"Extra\":\"x\"\x7d" =
      .ok (GoVal.structOf [("Word", "w")]) ∧
     jsonMarshallGoVal (GoVal.structOf [("Word", "w")]) =
      .ok "\x7b\"Word\":\"w\"\x7d\n" ∧
     jsonDecodeInto (GoType.structOf ["Word"]) "\x7b\"Word\":\"w\"\x7d\n" =
      .ok (GoVal.structOf [("Word", "w")])) ∧
    (∀ payload : String,
        textMarshalling.unmarshall payload GoType.stringT "text/plain" =
          .ok (.str payload) ∧
        textMarshalling.marshall (.str payload) "text/plain" = .ok payload) := by
  refine ⟨?_, ⟨by rfl, by rfl, by rfl⟩, ?_⟩
  · intro b v _
    exact jsonUnmarshall_jsonMarshall v
  · intro payload
    exact ⟨rfl, rfl⟩

theorem marshalling_roundtrip_witness :
    jsonUnmarshallString (jsonMarshallString "hi") = .ok "hi" ∧
    textMarshalling.marshall (.str "hi") "text/plain" = .ok "hi" :=
  ⟨marshalling_roundtrip.1 "\"hi\"" "hi" rfl, (marshalling_roundtrip.2.2 "hi").2⟩
